import Mathlib

/-!
# Verification of the Bitrix24 REST client (`bitrix24/bitrix24.py`)

A shallow embedding of the client's core logic:

* `prepare_params` — the recursive parameter encoder `_prepare_params`;
* `prepare_domain` — the domain normalizer `_prepare_domain`;
* `call_method` — the method invoker `_call_method`, with its
  rate-limit / error handling modelled including Python local-variable
  binding (the `r` read in the `except ValueError:` handler);
* `callMethodIter`, `callMethod`, `callMethodList` — the three
  pagination strategies.

Python values that can appear in call parameters, JSON responses and
rows are modelled by the inductive type `Value` (ints, strings, lists,
and insertion-ordered dicts as association lists).  Machine-level
details (HTTP transport, JSON decoding) are abstracted as oracles:
a call is a function from the varying request datum (offset `start`,
cursor id, attempt number) to a response.
-/

namespace Bitrix24

/-- Python values reachable by the client's logic: integers, strings,
lists, and dicts (insertion-ordered association lists).  Tuples are
treated by the source exactly like lists, so a single sequence
constructor suffices. -/
inductive Value : Type where
  | vInt  (n : Int) : Value
  | vStr  (s : String) : Value
  | vList (xs : List Value) : Value
  | vDict (kvs : List (String × Value)) : Value
deriving Repr

mutual

/-- Boolean equality on `Value` (structural, like Python `==` on these shapes). -/
def Value.beq : Value → Value → Bool
  | .vInt a, .vInt b => a == b
  | .vStr a, .vStr b => a == b
  | .vList xs, .vList ys => Value.beqList xs ys
  | .vDict xs, .vDict ys => Value.beqPairs xs ys
  | _, _ => false

/-- Equality on lists of values. -/
def Value.beqList : List Value → List Value → Bool
  | [], [] => true
  | x :: xs, y :: ys => Value.beq x y && Value.beqList xs ys
  | _, _ => false

/-- Equality on association lists of values. -/
def Value.beqPairs : List (String × Value) → List (String × Value) → Bool
  | [], [] => true
  | (k, v) :: xs, (l, w) :: ys => k == l && Value.beq v w && Value.beqPairs xs ys
  | _, _ => false

end

instance : BEq Value := ⟨Value.beq⟩

mutual

theorem Value.beq_refl : ∀ v : Value, Value.beq v v = true
  | .vInt _ => by simp [Value.beq]
  | .vStr _ => by simp [Value.beq]
  | .vList xs => by simp [Value.beq, Value.beqList_refl xs]
  | .vDict xs => by simp [Value.beq, Value.beqPairs_refl xs]

theorem Value.beqList_refl : ∀ xs : List Value, Value.beqList xs xs = true
  | [] => by simp [Value.beqList]
  | x :: xs => by simp [Value.beqList, Value.beq_refl x, Value.beqList_refl xs]

theorem Value.beqPairs_refl : ∀ xs : List (String × Value), Value.beqPairs xs xs = true
  | [] => by simp [Value.beqPairs]
  | (k, v) :: xs => by
      simp [Value.beqPairs, Value.beq_refl v, Value.beqPairs_refl xs]

end

mutual

theorem Value.eq_of_beq : ∀ {a b : Value}, Value.beq a b = true → a = b
  | .vInt _, .vInt _, h => by
      simp [Value.beq] at h; simp [h]
  | .vInt _, .vStr _, h => by simp [Value.beq] at h
  | .vInt _, .vList _, h => by simp [Value.beq] at h
  | .vInt _, .vDict _, h => by simp [Value.beq] at h
  | .vStr _, .vInt _, h => by simp [Value.beq] at h
  | .vStr _, .vStr _, h => by
      simp [Value.beq] at h; simp [h]
  | .vStr _, .vList _, h => by simp [Value.beq] at h
  | .vStr _, .vDict _, h => by simp [Value.beq] at h
  | .vList _, .vInt _, h => by simp [Value.beq] at h
  | .vList _, .vStr _, h => by simp [Value.beq] at h
  | .vList xs, .vList ys, h => by
      simp [Value.beq] at h
      simp [Value.eqList_of_beq h]
  | .vList _, .vDict _, h => by simp [Value.beq] at h
  | .vDict _, .vInt _, h => by simp [Value.beq] at h
  | .vDict _, .vStr _, h => by simp [Value.beq] at h
  | .vDict _, .vList _, h => by simp [Value.beq] at h
  | .vDict xs, .vDict ys, h => by
      simp [Value.beq] at h
      simp [Value.eqPairs_of_beq h]

theorem Value.eqList_of_beq : ∀ {xs ys : List Value}, Value.beqList xs ys = true → xs = ys
  | [], [], _ => rfl
  | [], _ :: _, h => by simp [Value.beqList] at h
  | _ :: _, [], h => by simp [Value.beqList] at h
  | x :: xs, y :: ys, h => by
      simp [Value.beqList] at h
      obtain ⟨h1, h2⟩ := h
      simp [Value.eq_of_beq h1, Value.eqList_of_beq h2]

theorem Value.eqPairs_of_beq :
    ∀ {xs ys : List (String × Value)}, Value.beqPairs xs ys = true → xs = ys
  | [], [], _ => rfl
  | [], _ :: _, h => by simp [Value.beqPairs] at h
  | _ :: _, [], h => by simp [Value.beqPairs] at h
  | (k, v) :: xs, (l, w) :: ys, h => by
      simp [Value.beqPairs] at h
      obtain ⟨⟨h0, h1⟩, h2⟩ := h
      simp [h0, Value.eq_of_beq h1, Value.eqPairs_of_beq h2]

end

instance : DecidableEq Value := fun a b =>
  if h : Value.beq a b = true then
    .isTrue (Value.eq_of_beq h)
  else
    .isFalse (fun he => h (he ▸ Value.beq_refl a))

mutual

/-- Python `str()` on a `Value`, as used when the encoder interpolates a
value into a format string.  Ints print in decimal, strings verbatim;
containers print in Python display form (strings inside containers are
shown in repr quotes). -/
def Value.pyStr : Value → String
  | .vInt n => toString n
  | .vStr s => s
  | .vList xs => "[" ++ Value.pyStrItems xs ++ "]"
  | .vDict kvs => "\x7b" ++ Value.pyStrPairs kvs ++ "\x7d"

/-- Python `repr()` on a `Value` (used for elements inside containers). -/
def Value.pyRepr : Value → String
  | .vInt n => toString n
  | .vStr s => String.singleton (Char.ofNat 39) ++ s ++ String.singleton (Char.ofNat 39)
  | .vList xs => "[" ++ Value.pyStrItems xs ++ "]"
  | .vDict kvs => "\x7b" ++ Value.pyStrPairs kvs ++ "\x7d"

/-- Comma-separated reprs of list elements. -/
def Value.pyStrItems : List Value → String
  | [] => ""
  | [x] => Value.pyRepr x
  | x :: y :: xs => Value.pyRepr x ++ ", " ++ Value.pyStrItems (y :: xs)

/-- Comma-separated reprs of dict entries. -/
def Value.pyStrPairs : List (String × Value) → String
  | [] => ""
  | [(k, v)] => Value.pyRepr (.vStr k) ++ ": " ++ Value.pyRepr v
  | (k, v) :: p :: xs =>
      Value.pyRepr (.vStr k) ++ ": " ++ Value.pyRepr v ++ ", " ++ Value.pyStrPairs (p :: xs)

end

/-- Python truthiness for the shapes in `Value`: `0`, `""`, `[]` and
`\x7b\x7d` are falsy, everything else truthy. -/
def Value.truthy : Value → Bool
  | .vInt n => n != 0
  | .vStr s => s != ""
  | .vList xs => !xs.isEmpty
  | .vDict kvs => !kvs.isEmpty

mutual

/-- `Bitrix24._prepare_params(params, prev='')`, translated clause by
clause from the source:

* dict value → recurse, with key prefixed by `prev[key]` when `prev`
  is non-empty;
* non-empty list value → per element: dict elements recurse with
  prefix `prev[key][offset]` (the source formats `prev` in even when
  it is empty); other elements emit
  `prev[key][offset]=value&` / `key[offset]=value&`;
* everything else (scalars, and the empty list, which fails the
  `len(value) > 0` guard) → emit `prev[key]=value&` / `key=value&`
  with the Python `str()` of the value. -/
def prepare_params : List (String × Value) → String → String
  | [], _ => ""
  | (key, value) :: rest, prev =>
      (match value with
       | .vDict kvs =>
           prepare_params kvs (if prev ≠ "" then prev ++ "[" ++ key ++ "]" else key)
       | .vList (x :: xs) => prepare_list prev key 0 (x :: xs)
       | v =>
           if prev ≠ "" then
             prev ++ "[" ++ key ++ "]=" ++ Value.pyStr v ++ "&"
           else
             key ++ "=" ++ Value.pyStr v ++ "&")
      ++ prepare_params rest prev

/-- The `for offset, val in enumerate(value):` loop of `_prepare_params`. -/
def prepare_list : String → String → Nat → List Value → String
  | _, _, _, [] => ""
  | prev, key, offset, val :: vals =>
      (match val with
       | .vDict kvs =>
           prepare_params kvs (prev ++ "[" ++ key ++ "][" ++ toString offset ++ "]")
       | v =>
           if prev ≠ "" then
             prev ++ "[" ++ key ++ "][" ++ toString offset ++ "]=" ++ Value.pyStr v ++ "&"
           else
             key ++ "[" ++ toString offset ++ "]=" ++ Value.pyStr v ++ "&")
      ++ prepare_list prev key (offset + 1) vals

end

/-- Merging two adjacent string literals under right-nested appends. -/
theorem str_merge (a b c : String) (h : a ++ b = c) (s : String) :
    a ++ (b ++ s) = c ++ s := by
  rw [← String.append_assoc, h]

/-- A string starting with `[` is not empty. -/
theorem bracket_append_ne_empty (s : String) : ("[" ++ s) ≠ "" := by
  intro h
  have hl := congrArg String.length h
  simp [String.length_append] at hl
  exact absurd hl.1 (by decide)

/-- The encoder is a homomorphism for concatenation of parameter lists. -/
theorem prepare_params_append (xs ys : List (String × Value)) (prev : String) :
    prepare_params (xs ++ ys) prev = prepare_params xs prev ++ prepare_params ys prev := by
  induction xs with
  | nil => simp [prepare_params]
  | cons p xs ih =>
      obtain ⟨key, value⟩ := p
      cases value with
      | vDict kvs => simp only [List.cons_append, prepare_params, ih, String.append_assoc]
      | vList vs =>
          cases vs with
          | nil => simp only [List.cons_append, prepare_params, ih, String.append_assoc]
          | cons v vs => simp only [List.cons_append, prepare_params, ih, String.append_assoc]
      | vInt n => simp only [List.cons_append, prepare_params, ih, String.append_assoc]
      | vStr s => simp only [List.cons_append, prepare_params, ih, String.append_assoc]

/-- C1 counterexample: the claim says encoding `\x7ba: []\x7d` yields the
empty string, but `_prepare_params` emits `a=[]&` — the empty list fails
the `len(value) > 0` guard and falls through to the scalar branch, which
interpolates Python `str([])`. -/
theorem c1_counterexample :
    prepare_params [("a", Value.vList [])] "" = "a=[]&" ∧
      prepare_params [("a", Value.vList [])] "" ≠ "" := by
  constructor
  · simp only [prepare_params, Value.pyStr, Value.pyStrItems]
    decide
  · simp only [prepare_params, Value.pyStr, Value.pyStrItems]
    decide

/-- C1 (amended): for every top-level key whose value is an empty
sequence, the Parameter Encoder emits `key=[]&` for that key (the empty
sequence is not dropped: it reaches the scalar branch and its Python
`str()` form `[]` is interpolated); in particular encoding `\x7ba: []\x7d`
yields `"a=[]&"`. -/
theorem c1_theorem :
    (∀ (pre post : List (String × Value)) (key : String),
      prepare_params (pre ++ (key, Value.vList []) :: post) "" =
        prepare_params pre "" ++ (key ++ ("=[]&" ++ prepare_params post ""))) ∧
      prepare_params [("a", Value.vList [])] "" = "a=[]&" := by
  constructor
  · intro pre post key
    rw [prepare_params_append]
    congr 1
    simp only [prepare_params, Value.pyStr, Value.pyStrItems, ne_eq, not_true_eq_false,
      if_false, String.append_assoc, String.empty_append]
    rw [str_merge "[" "]" "[]" rfl, str_merge "=" "[]" "=[]" rfl, str_merge "=[]" "&" "=[]&" rfl]
  · simp only [prepare_params, Value.pyStr, Value.pyStrItems]
    decide

/-- C10: for every top-level key whose value is a non-empty sequence
containing a mapping element, the recursion prefix is formatted as
`parent[key][index]` with the empty top-level parent included, so the
emitted keys begin with a bare bracket: encoding
`\x7bkey: [\x7bb: n\x7d]\x7d` yields `[key][0][b]=n&`, and in particular
`\x7ba: [\x7bb: 1\x7d]\x7d` encodes to `[a][0][b]=1&`, not `a[0][b]=1&`. -/
theorem c10_theorem :
    (∀ (key b : String) (n : Int),
      prepare_params [(key, Value.vList [Value.vDict [(b, Value.vInt n)]])] "" =
        "[" ++ (key ++ ("][0][" ++ (b ++ ("]=" ++ (toString n ++ "&")))))) ∧
      prepare_params [("a", Value.vList [Value.vDict [("b", Value.vInt 1)]])] "" =
        "[a][0][b]=1&" ∧
      ("[a][0][b]=1&" : String) ≠ "a[0][b]=1&" := by
  refine ⟨?_, ?_, by decide⟩
  · intro key b n
    simp only [prepare_params, prepare_list, Value.pyStr, String.empty_append,
      String.append_assoc]
    rw [if_pos (bracket_append_ne_empty _), String.append_empty]
    rw [show toString (0 : Nat) = "0" from rfl]
    rw [str_merge "][" "0" "][0" rfl, str_merge "][0" "]" "][0]" rfl,
      str_merge "][0]" "[" "][0][" rfl]
  · simp only [prepare_params, prepare_list]
    decide

/-- Python `str.split(sep)` for a one-character separator, on explicit
character lists (so that it evaluates in the kernel).  `split` of the
empty string is `[""]`, and separators at the ends produce empty parts,
exactly as in Python. -/
def splitChar (c : Char) : List Char → List (List Char)
  | [] => [[]]
  | x :: xs =>
      if x = c then [] :: splitChar c xs
      else
        match splitChar c xs with
        | [] => [[x]]
        | r :: rs => (x :: r) :: rs

/-- Python `path.split('/')`. -/
def pySplitSlash (s : String) : List String := (splitChar '/' s.data).map String.mk

/-- Split a character list at the first occurrence of `://`:
returns the part before and the part after, or `none` when `://` does
not occur. -/
def findSchemeSplit : List Char → Option (List Char × List Char)
  | ':' :: '/' :: '/' :: rest => some ([], rest)
  | x :: xs => (findSchemeSplit xs).map (fun p => (x :: p.1, p.2))
  | [] => none

/-- Model of `urllib.parse.urlparse`, restricted to the URL shapes this
client works with: `scheme://netloc/path...` parses into the scheme
before the first `://`, the netloc up to the next `/`, and the path from
that `/` on; a string without `://` parses as a bare path with empty
scheme and netloc (as `urlparse` does for such inputs). -/
def urlparse_model (url : String) : String × String × String :=
  match findSchemeSplit url.data with
  | none => ("", "", url)
  | some (schemeCs, restCs) =>
      (String.mk schemeCs, String.mk (restCs.takeWhile (· ≠ '/')),
        String.mk (restCs.dropWhile (· ≠ '/')))

/-- The exceptions `_prepare_domain` can raise: the explicit
`Exception('Empty domain')` guard (the spec's `InvalidDomain`), and the
`ValueError` from unpacking `o.path.split('/')[2:4]` into two variables
when the slice has fewer than two elements. -/
inductive DomainError : Type where
  | invalidDomain
  | valueErrorUnpack
deriving DecidableEq, Repr

/-- The constructor's `domain` argument: a string, or any non-string
value (Python would receive an arbitrary object; only its
non-stringness matters to the guard). -/
inductive DomainInput : Type where
  | str (s : String)
  | notStr
deriving DecidableEq, Repr

/-- `Bitrix24._prepare_domain`: raise on `domain == '' or not
isinstance(domain, str)`; otherwise parse the URL, take elements 2 and 3
of `o.path.split('/')` as user id and secret code (a `ValueError` if the
split is shorter), and format `scheme://netloc/rest/user_id/code`. -/
def prepare_domain (domain : DomainInput) : Except DomainError String :=
  match domain with
  | .notStr => .error .invalidDomain
  | .str s =>
      if s = "" then .error .invalidDomain
      else
        let parsed := urlparse_model s
        match ((pySplitSlash parsed.2.2).drop 2).take 2 with
        | [user_id, code] =>
            .ok (parsed.1 ++ "://" ++ parsed.2.1 ++ "/rest/" ++ user_id ++ "/" ++ code)
        | _ => .error .valueErrorUnpack

/-- The method-name verbs that `_call_method` sends as POST. -/
def post_verbs : List String := ["add", "update", "delete", "set"]

/-- Python `method.rsplit('.', 1)[0]`: everything before the last dot,
or the whole string when there is no dot. -/
def rsplitHead (m : String) : String :=
  match m.data.reverse.dropWhile (· ≠ '.') with
  | [] => m
  | _ :: pre => String.mk pre.reverse

/-- The POST/GET dispatch test of `_call_method`:
`method.rsplit('.', 1)[0] in ['add', 'update', 'delete', 'set']`. -/
def isPostMethod (m : String) : Bool := post_verbs.contains (rsplitHead m)

/-- The HTTP request `_call_method` issues: the target URL, whether it
is a form-encoded POST (body = wire parameters) or a GET (query string =
wire parameters), and the wire-parameter payload. -/
structure Request : Type where
  url : String
  post : Bool
  payload : String
deriving DecidableEq, Repr

/-- Request assembly in `_call_method`: url `domain/method.json`, the
dispatch rule on the method name, and `_prepare_params` output as the
payload (POST body or GET query string). -/
def buildRequest (domain method : String) (params : List (String × Value)) : Request :=
  { url := domain ++ "/" ++ method ++ ".json"
    post := isPostMethod method
    payload := prepare_params params "" }

/-- The spec's words for the dispatch test: the first dot-separated
segment of the method name, everything up to the first dot. -/
def firstDotSegment (m : String) : String := String.mk (m.data.takeWhile (· ≠ '.'))

/-- `dropWhile` skips a prefix whose elements all satisfy the predicate. -/
theorem dropWhile_append_of_forall {p : Char → Bool} {xs : List Char} (ys : List Char)
    (h : ∀ x ∈ xs, p x) : List.dropWhile p (xs ++ ys) = List.dropWhile p ys := by
  induction xs with
  | nil => rfl
  | cons x xs ih =>
      simp only [List.cons_append, List.dropWhile_cons]
      rw [if_pos (h x (by simp))]
      exact ih (fun a ha => h a (by simp [ha]))

/-- `rsplit('.', 1)[0]` of a name with no dot is the whole name. -/
theorem rsplitHead_no_dot (m : String) (h : ∀ c ∈ m.data, c ≠ '.') :
    rsplitHead m = m := by
  unfold rsplitHead
  rw [List.dropWhile_eq_nil_iff.mpr (by
    intro x hx
    simp only [ne_eq, decide_eq_true_eq]
    exact h x (List.mem_reverse.mp hx))]

/-- `rsplit('.', 1)[0]` of `pre ++ "." ++ tail` is `pre` when the tail
contains no dot. -/
theorem rsplitHead_append (pre : String) (t : List Char) (h : ∀ c ∈ t, c ≠ '.') :
    rsplitHead (pre ++ "." ++ String.mk t) = pre := by
  unfold rsplitHead
  have hdata : (pre ++ "." ++ String.mk t).data = (pre.data ++ ['.']) ++ t := by
    simp [String.data_append]
  rw [hdata, List.reverse_append, List.reverse_append]
  simp only [List.reverse_cons, List.reverse_nil, List.nil_append, List.singleton_append]
  rw [dropWhile_append_of_forall ('.' :: pre.data.reverse) (by
    intro x hx
    simp only [ne_eq, decide_eq_true_eq]
    exact h x (List.mem_reverse.mp hx))]
  rw [List.dropWhile_cons]
  simp

/-- C3 counterexample: the claim says the dispatch is on the first
dot-separated segment, so `add.x.y` (first segment `add`) should be a
POST; but `rsplit('.', 1)[0]` of `add.x.y` is `add.x`, which is not a
POST verb, and the code issues a GET. -/
theorem c3_counterexample :
    firstDotSegment "add.x.y" = "add" ∧ "add" ∈ post_verbs ∧
      isPostMethod "add.x.y" = false := by
  refine ⟨by decide, by decide, by decide⟩

/-- C3 (amended): the Method Invoker issues a form-encoded POST if and
only if the method name with its final dot-separated segment removed —
everything up to the *last* dot, or the whole name when it has no dot —
is one of `add`, `update`, `delete`, `set`; otherwise it issues a GET;
either way the request targets `domain/method.json` and carries the
Wire Parameters as payload (POST body / GET query string). -/
theorem c3_theorem :
    (∀ m : String, (∀ c ∈ m.data, c ≠ '.') → isPostMethod m = post_verbs.contains m) ∧
    (∀ (pre : String) (t : List Char), (∀ c ∈ t, c ≠ '.') →
      isPostMethod (pre ++ "." ++ String.mk t) = post_verbs.contains pre) ∧
    (∀ (domain method : String) (params : List (String × Value)),
      (buildRequest domain method params).post = isPostMethod method ∧
        (buildRequest domain method params).url = domain ++ "/" ++ method ++ ".json" ∧
        (buildRequest domain method params).payload = prepare_params params "") := by
  refine ⟨?_, ?_, ?_⟩
  · intro m h
    rw [isPostMethod, rsplitHead_no_dot m h]
  · intro pre t h
    rw [isPostMethod, rsplitHead_append pre t h]
  · intro domain method params
    exact ⟨rfl, rfl, rfl⟩

/-- C3 witness: the dispatch characterization applied to the dotless
verb `add`, to `add.x` (prefix before the last dot is `add`: a POST),
and to `crm.product.add` (prefix `crm.product`: a GET). -/
theorem c3_witness :
    isPostMethod "add" = post_verbs.contains "add" ∧
      isPostMethod ("add" ++ "." ++ String.mk ['x']) = post_verbs.contains "add" ∧
      isPostMethod ("crm.product" ++ "." ++ String.mk ['a', 'd', 'd']) =
        post_verbs.contains "crm.product" :=
  ⟨c3_theorem.1 "add" (by decide), c3_theorem.2.1 "add" ['x'] (by decide),
    c3_theorem.2.1 "crm.product" ['a', 'd', 'd'] (by decide)⟩

/-- C4 counterexample: for the URL `https://host/a/b/c/d` — of the
claim's form `scheme://host/seg0/seg1/<uid>/<code>` with `uid = c`,
`code = d` — the claim predicts `https://host/rest/c/d`, but
`_prepare_domain` produces `https://host/rest/b/c`: `split('/')` of the
path starts with an empty component, so elements 2 and 3 of the split
are the 1st and 2nd path segments, not the 2nd and 3rd. -/
theorem c4_counterexample :
    prepare_domain (.str "https://host/a/b/c/d") = .ok "https://host/rest/b/c" ∧
      ("https://host/rest/b/c" : String) ≠ "https://host/rest/c/d" :=
  ⟨rfl, by decide⟩

/-- C4 (amended): for any input URL of the form
`scheme://host/seg0/<uid>/<code>/...` — one arbitrary leading path
segment, not two — the Domain Normalizer produces
`scheme://host/rest/<uid>/<code>`: it extracts elements 2 and 3 of
`path.split('/')`, which are the 1st and 2nd path segments (0-indexed)
because the split of an absolute path begins with an empty component. -/
theorem c4_theorem (d scheme netloc path seg0 uid code : String) (rest : List String)
    (hd : d ≠ "")
    (hurl : urlparse_model d = (scheme, netloc, path))
    (hsplit : pySplitSlash path = "" :: seg0 :: uid :: code :: rest) :
    prepare_domain (.str d) = .ok (scheme ++ "://" ++ netloc ++ "/rest/" ++ uid ++ "/" ++ code) := by
  simp [prepare_domain, hd, hurl, hsplit]

/-- C4 witness: the amended normalization applied to the documented
example shape `https://example.bitrix24.com/rest/1/33olqeits4avuyqu`. -/
theorem c4_witness :
    prepare_domain (.str "https://example.bitrix24.com/rest/1/33olqeits4avuyqu") =
      .ok "https://example.bitrix24.com/rest/1/33olqeits4avuyqu" :=
  c4_theorem "https://example.bitrix24.com/rest/1/33olqeits4avuyqu"
    "https" "example.bitrix24.com" "/rest/1/33olqeits4avuyqu"
    "rest" "1" "33olqeits4avuyqu" [] (by decide) rfl rfl

/-- C8 counterexample: `"x"` is a non-empty string, so by the claim
construction should succeed; but `_prepare_domain` raises a
`ValueError` unpacking `split('/')[2:4]` (only one split component). -/
theorem c8_counterexample :
    prepare_domain (.str "x") = .error .valueErrorUnpack := rfl

/-- C8 (amended): construction fails with `InvalidDomain` exactly when
the supplied domain is the empty string or not a text value; any other
input passes that check, but construction succeeds if and only if the
parsed path yields at least four `split('/')` components — otherwise it
still fails, with a `ValueError` from unpacking, not `InvalidDomain`. -/
theorem c8_theorem :
    (∀ inp, prepare_domain inp = .error .invalidDomain ↔ (inp = .notStr ∨ inp = .str "")) ∧
    (∀ s, s ≠ "" →
      ((∃ out, prepare_domain (.str s) = .ok out) ↔
        4 ≤ (pySplitSlash (urlparse_model s).2.2).length)) := by
  constructor
  · intro inp
    cases inp with
    | notStr => simp [prepare_domain]
    | str s =>
        by_cases hs : s = ""
        · subst hs; simp [prepare_domain]
        · simp only [prepare_domain, if_neg hs]
          rcases hl : pySplitSlash (urlparse_model s).2.2 with _ | ⟨a, _ | ⟨b, _ | ⟨c, _ | ⟨e, tl⟩⟩⟩⟩ <;>
            simp [hs]
  · intro s hs
    simp only [prepare_domain, if_neg hs]
    rcases hl : pySplitSlash (urlparse_model s).2.2 with _ | ⟨a, _ | ⟨b, _ | ⟨c, _ | ⟨e, tl⟩⟩⟩⟩ <;>
      simp

/-- C8 witness: the empty string fails with `InvalidDomain`; the domain
`https://host/a/b/c` (four split components) constructs successfully;
the domain `x` (one component) does not. -/
theorem c8_witness :
    prepare_domain (.str "") = .error .invalidDomain ∧
      (∃ out, prepare_domain (.str "https://host/a/b/c") = .ok out) ∧
      ¬(∃ out, prepare_domain (.str "x") = .ok out) :=
  ⟨(c8_theorem.1 (.str "")).mpr (Or.inr rfl),
    (c8_theorem.2 "https://host/a/b/c" (by decide)).mpr (by decide),
    fun h => absurd ((c8_theorem.2 "x" (by decide)).mp h) (by decide)⟩

/-- A decoded JSON object (the response envelope): an
insertion-ordered mapping from field names to values. -/
abbrev Envelope : Type := List (String × Value)

/-- The exceptions the invoker and pagination code can raise:
`BitrixError(r)` carrying the decoded body; the `UnboundLocalError`
from reading the never-assigned local `r` in the `except ValueError:`
handler; `KeyError`/`TypeError` from subscripts; and a fuel marker for
runs longer than the modelled bound. -/
inductive Exc : Type where
  | bitrixError (r : Value)
  | unboundLocal
  | keyError (k : String)
  | typeError
  | fuelExhausted
deriving DecidableEq, Repr

/-- Python's substring test `needle in hay` on strings. -/
def isSubstringOf (needle hay : List Char) : Bool :=
  hay.tails.any (fun t => needle.isPrefixOf t)

/-- The body of the `except ValueError:` handler in `_call_method`,
with Python local-variable binding made explicit: `r?` is the state of
the local `r` at the moment the handler runs (`none` = never assigned).
The handler reads `r['error']`; if that text is *not* a substring of
`'QUERY_LIMIT_EXCEEDED'` it raises `BitrixError(r)`, otherwise it
sleeps 2 seconds and retries the identical call. -/
def rateLimitHandler (r? : Option Envelope)
    (retry : Unit → List Nat × Except Exc Envelope) : List Nat × Except Exc Envelope :=
  match r? with
  | none => ([], .error .unboundLocal)
  | some r =>
      match List.lookup "error" r with
      | none => ([], .error (.keyError "error"))
      | some (.vStr e) =>
          if isSubstringOf e.data "QUERY_LIMIT_EXCEEDED".data then
            let rec2 := retry ()
            (2 :: rec2.1, rec2.2)
          else ([], .error (.bitrixError (.vDict r)))
      | some _ => ([], .error .typeError)

/-- `Bitrix24._call_method`, abstracted over the transport: `responses
attempt` is what the `attempt`-th `requests...(...).json()` produces —
`.ok r` for a decoded JSON object, `.error ()` for the `ValueError`
raised on a non-JSON body (in which case the local `r` was never
assigned).  Returns the list of sleep durations performed and the
outcome.  A decoded envelope containing an `error` key raises
`BitrixError`; otherwise the envelope is returned unchanged. -/
def call_method (responses : Nat → Except Unit Envelope) :
    Nat → Nat → List Nat × Except Exc Envelope
  | 0, _ => ([], .error .fuelExhausted)
  | fuel + 1, attempt =>
      match responses attempt with
      | .error () =>
          rateLimitHandler none (fun _ => call_method responses fuel (attempt + 1))
      | .ok r =>
          if (List.lookup "error" r).isSome then ([], .error (.bitrixError (.vDict r)))
          else ([], .ok r)

/-- The `'next' in r and r['total'] > params['start']` test of
`callMethodIter`: `total` is read (and must be an int) only when `next`
is present. -/
def nextCondition (r : Envelope) (start : Int) : Except Exc Bool :=
  match List.lookup "next" r with
  | none => .ok false
  | some _ =>
      match List.lookup "total" r with
      | none => .error (.keyError "total")
      | some (.vInt total) => .ok (start < total)
      | some _ => .error .typeError

/-- `yield r['result']` after the recursive pages `deeper`. -/
def yieldResult (r : Envelope) (deeper : List Value) : Except Exc (List Value) :=
  match List.lookup "result" r with
  | some res => .ok (deeper ++ [res])
  | none => .error (.keyError "result")

/-- The recursion of `callMethodIter`: call with the current `start`;
when the envelope has `next` and `total > start`, recurse at
`start + 50` and emit those deeper results first; finally emit this
page's `result`.  `call start` abstracts `self._call_method(method,
**params)` as a function of the varying `start` parameter. -/
def callIterGo (call : Int → Except Exc Envelope) : Nat → Int → Except Exc (List Value)
  | 0, _ => .error .fuelExhausted
  | fuel + 1, start =>
      match call start with
      | .error e => .error e
      | .ok r =>
          match nextCondition r start with
          | .error e => .error e
          | .ok true =>
              match callIterGo call fuel (start + 50) with
              | .error e => .error e
              | .ok deeper => yieldResult r deeper
          | .ok false => yieldResult r []

/-- `Bitrix24.callMethodIter`: the full drained page sequence of the
generator, with `start` defaulting to 0 when the caller did not supply
one (`if 'start' not in params: params['start'] = 0`). -/
def callMethodIter (call : Int → Except Exc Envelope) (start? : Option Int)
    (fuel : Nat) : Except Exc (List Value) :=
  callIterGo call fuel (start?.getD 0)

/-- Reference trace following the spec's words for the lazy offset
iteration: pages are *fetched* in increasing-offset order, recording
each fetched offset with that page's `result`; after a page, a further
page is fetched if and only if the envelope has a `next` field and
`total > start`, with `start` advanced by exactly 50. -/
def specFetchTrace (call : Int → Except Exc Envelope) :
    Nat → Int → Except Exc (List (Int × Value))
  | 0, _ => .error .fuelExhausted
  | fuel + 1, start =>
      match call start with
      | .error e => .error e
      | .ok r =>
          match List.lookup "result" r with
          | none => .error (.keyError "result")
          | some res =>
              match nextCondition r start with
              | .error e => .error e
              | .ok false => .ok [(start, res)]
              | .ok true =>
                  match specFetchTrace call fuel (start + 50) with
                  | .error e => .error e
                  | .ok rest => .ok ((start, res) :: rest)

/-- Python `d[k] = v` on an insertion-ordered dict: overwrite in place
when the key exists, append otherwise. -/
def dictSet (d : List (String × Value)) (k : String) (v : Value) : List (String × Value) :=
  if d.any (fun p => p.1 == k) then d.map (fun p => if p.1 == k then (k, v) else p)
  else d ++ [(k, v)]

/-- Python `d.update(e)`. -/
def dictUpdate (d e : List (String × Value)) : List (String × Value) :=
  e.foldl (fun acc kv => dictSet acc kv.1 kv.2) d

/-- The `for r in self.callMethodIter(...)` loop of `callMethod`:
threads the accumulated dict, the accumulated list, and the loop
variable `r` (as `Option`, `none` while unassigned). -/
def aggLoop : List Value → List (String × Value) → List Value → Option Value →
    List (String × Value) × List Value × Option Value
  | [], rd, rl, last => (rd, rl, last)
  | r :: rest, rd, rl, _ =>
      match r with
      | .vDict d => aggLoop rest (dictUpdate rd d) rl (some (.vDict d))
      | .vList l => aggLoop rest rd (rl ++ l) (some (.vList l))
      | v => aggLoop rest rd rl (some v)

/-- `Bitrix24.callMethod`: drain the iterator, merge dict pages into
`result_dict`, extend `result_list` with list pages, and return
`result_dict or result_list or r` (Python truthiness: the non-empty
dict, else the non-empty list, else the last page unchanged). -/
def callMethod (call : Int → Except Exc Envelope) (start? : Option Int)
    (fuel : Nat) : Except Exc Value :=
  match callMethodIter call start? fuel with
  | .error e => .error e
  | .ok pages =>
      match aggLoop pages [] [] none with
      | (rd, rl, last) =>
          if !rd.isEmpty then .ok (.vDict rd)
          else if !rl.isEmpty then .ok (.vList rl)
          else
            match last with
            | some v => .ok v
            | none => .error .unboundLocal

/-- The merge of all mapping-shaped pages, in yield order (the spec's
aggregate-and-merge accumulating mapping). -/
def specDictMerge (pages : List Value) : List (String × Value) :=
  (pages.filterMap (fun v => match v with | .vDict d => some d | _ => none)).foldl dictUpdate []

/-- The concatenation of all sequence-shaped pages, in yield order. -/
def specListConcat (pages : List Value) : List Value :=
  (pages.filterMap (fun v => match v with | .vList l => some l | _ => none)).foldl
    (fun acc l => acc ++ l) []

/-- One recorded call of the cursor bulk fetch: the `start` it forces,
the `order` it forces, and the `>ID` filter value it sends. -/
structure ListCall : Type where
  start : Int
  order : List (String × Value)
  gtID : Value
deriving DecidableEq, Repr

/-- The `while True:` loop of `callMethodList`.  `server id` abstracts
`self._call_method(method, **params)['result']` as a function of the
`>ID` cursor (the only datum that varies between iterations); every
iteration records the call it makes (`start=-1`, `order={ID: asc}`,
the rewritten `>ID`).  A dict result is narrowed with `r.get(key, [])`;
a truthy result is appended and the cursor becomes the `id` field of
its last row; a falsy result stops the loop. -/
def callMethodListGo (server : Value → Value) (key? : Option String) :
    Nat → Value → Except Exc (List ListCall × List Value)
  | 0, _ => .error .fuelExhausted
  | fuel + 1, id =>
      let c : ListCall := ⟨-1, [("ID", .vStr "asc")], id⟩
      let r := server id
      let rv : Value :=
        match r with
        | .vDict d =>
            match key? with
            | some k => (List.lookup k d).getD (.vList [])
            | none => .vList []
        | _ => r
      if rv.truthy then
        match rv with
        | .vList rows =>
            match rows.getLast? with
            | some (.vDict lastRow) =>
                match List.lookup "id" lastRow with
                | some newId =>
                    match callMethodListGo server key? fuel newId with
                    | .error e => .error e
                    | .ok (calls, res) => .ok (c :: calls, rows ++ res)
                | none => .error (.keyError "id")
            | _ => .error .typeError
        | _ => .error .typeError
      else .ok ([c], [])

/-- `Bitrix24.callMethodList` (`id` defaults to `0` at the Python call
site; pass `.vInt 0`). -/
def callMethodList (server : Value → Value) (key? : Option String)
    (fuel : Nat) (id : Value) : Except Exc (List ListCall × List Value) :=
  callMethodListGo server key? fuel id

/-- C2: evaluated on the code, a decoded response
`\x7b"error": "QUERY_LIMIT_EXCEEDED_detail"\x7d` raises `BitrixError`
immediately — zero sleeps, zero retries, for every retry budget — because
`.json()` succeeded, so the `except ValueError:` rate-limit path is never
entered and the `if 'error' in r` check fires first.  The
`\x7b"error": "OTHER"\x7d` half of the claim (raise immediately, no
retry) does hold, identically. -/
theorem c2_theorem :
    ∀ (fuel attempt : Nat),
      call_method (fun _ => .ok [("error", Value.vStr "QUERY_LIMIT_EXCEEDED_detail")])
          (fuel + 1) attempt =
        ([], .error (.bitrixError (.vDict [("error", Value.vStr "QUERY_LIMIT_EXCEEDED_detail")]))) ∧
      call_method (fun _ => .ok [("error", Value.vStr "OTHER")]) (fuel + 1) attempt =
        ([], .error (.bitrixError (.vDict [("error", Value.vStr "OTHER")]))) :=
  fun _ _ => ⟨rfl, rfl⟩

/-- C9: whenever the HTTP response body fails JSON decoding (the
`.json()` call raises `ValueError`), `_call_method` enters the
`except ValueError:` handler with the local `r` never assigned, so the
call fails with an unbound-local error: no sleep is performed (the
sleep trace is empty), no retry happens, and no `BitrixError` is
raised on this path. -/
theorem c9_theorem (responses : Nat → Except Unit Envelope) (fuel attempt : Nat)
    (h : responses attempt = .error ()) :
    call_method responses (fuel + 1) attempt = ([], .error .unboundLocal) := by
  simp [call_method, h, rateLimitHandler]

/-- C9 witness: a transport whose body never decodes, at the first
attempt. -/
theorem c9_witness :
    call_method (fun _ => .error ()) 4 0 = ([], .error .unboundLocal) :=
  c9_theorem (fun _ => .error ()) 3 0 rfl

/-- The drained iterator equals the reverse of the spec-side fetch
trace's results, and the fetched offsets are `start, start+50, ...`. -/
theorem callIterGo_eq_reverse_trace (call : Int → Except Exc Envelope) :
    ∀ (fuel : Nat) (start : Int) (trace : List (Int × Value)),
      specFetchTrace call fuel start = .ok trace →
      callIterGo call fuel start = .ok ((trace.map Prod.snd).reverse) ∧
      trace.map Prod.fst = (List.range trace.length).map (fun i : Nat => start + 50 * (i : Int)) := by
  intro fuel
  induction fuel with
  | zero => intro start trace h; simp [specFetchTrace] at h
  | succ fuel ih =>
      intro start trace h
      simp only [specFetchTrace] at h
      cases hc : call start with
      | error e => simp only [hc] at h; exact Except.noConfusion h
      | ok r =>
          simp only [hc] at h
          cases hres : List.lookup "result" r with
          | none => simp only [hres] at h; exact Except.noConfusion h
          | some res =>
              simp only [hres] at h
              cases hcond : nextCondition r start with
              | error e => simp only [hcond] at h; exact Except.noConfusion h
              | ok b =>
                  simp only [hcond] at h
                  cases b with
                  | false =>
                      simp only [Except.ok.injEq] at h
                      subst h
                      refine ⟨?_, ?_⟩
                      · simp [callIterGo, hc, hcond, yieldResult, hres]
                      · simp [List.range_succ]
                  | true =>
                      cases hrec : specFetchTrace call fuel (start + 50) with
                      | error e => simp only [hrec] at h; exact Except.noConfusion h
                      | ok rest =>
                          simp only [hrec, Except.ok.injEq] at h
                          subst h
                          obtain ⟨h1, h2⟩ := ih (start + 50) rest hrec
                          refine ⟨?_, ?_⟩
                          · simp [callIterGo, hc, hcond, h1, yieldResult, hres]
                          · simp only [List.map_cons, List.length_cons,
                              List.range_succ_eq_map, List.map_map]
                            congr 1
                            · simp
                            · rw [h2]
                              apply List.map_congr_left
                              intro i hi
                              simp only [Function.comp_apply]
                              push_cast
                              ring

/-- C5: whenever the spec-side fetch trace (pages fetched in
increasing-offset order; a further page fetched iff the envelope has
`next` and `total > start`; `start` advanced by exactly 50) completes,
the lazy offset iteration `callMethodIter` yields exactly the traced
per-page results in *reverse* fetch order — deeper pages before the
current page, terminal page's own result first — and the fetched
offsets are precisely `start, start+50, start+100, ...`. -/
theorem c5_theorem (call : Int → Except Exc Envelope) (start? : Option Int)
    (fuel : Nat) (trace : List (Int × Value))
    (h : specFetchTrace call fuel (start?.getD 0) = .ok trace) :
    callMethodIter call start? fuel = .ok ((trace.map Prod.snd).reverse) ∧
      trace.map Prod.fst =
        (List.range trace.length).map (fun i : Nat => start?.getD 0 + 50 * (i : Int)) :=
  callIterGo_eq_reverse_trace call fuel (start?.getD 0) trace h

/-- A three-page demo transport for the offset iteration: pages at
offsets 0 and 50 carry `next` and `total = 120`; the page at offset 100
has no `next`. -/
def iterDemoCall : Int → Except Exc Envelope := fun start =>
  if start = 0 then .ok [("result", .vList [.vInt 1]), ("next", .vInt 50), ("total", .vInt 120)]
  else if start = 50 then
    .ok [("result", .vList [.vInt 2]), ("next", .vInt 100), ("total", .vInt 120)]
  else .ok [("result", .vList [.vInt 3]), ("total", .vInt 120)]

/-- C5 witness: on the three-page demo transport, starting at the
default offset 0, the iterator yields page results last-fetched-first
and the fetch offsets are 0, 50, 100. -/
theorem c5_witness :
    callMethodIter iterDemoCall none 5 =
        .ok [.vList [.vInt 3], .vList [.vInt 2], .vList [.vInt 1]] ∧
      ([((0 : Int), Value.vList [.vInt 1]), (50, .vList [.vInt 2]),
          (100, .vList [.vInt 3])].map Prod.fst =
        (List.range 3).map (fun i : Nat => (0 : Int) + 50 * (i : Int))) :=
  c5_theorem iterDemoCall none 5
    [(0, .vList [.vInt 1]), (50, .vList [.vInt 2]), (100, .vList [.vInt 3])] rfl

/-- The aggregation loop threads its three accumulators independently:
dict pages fold into the dict accumulator, list pages concatenate onto
the list accumulator, and the loop variable ends as the last page. -/
theorem aggLoop_spec :
    ∀ (pages : List Value) (rd : List (String × Value)) (rl : List Value) (last : Option Value),
      aggLoop pages rd rl last =
        ((pages.filterMap (fun v => match v with | .vDict d => some d | _ => none)).foldl
           dictUpdate rd,
         (pages.filterMap (fun v => match v with | .vList l => some l | _ => none)).foldl
           (fun acc l => acc ++ l) rl,
         pages.foldl (fun _ r => some r) last) := by
  intro pages
  induction pages with
  | nil => intro rd rl last; rfl
  | cons p rest ih =>
      intro rd rl last
      cases p with
      | vDict d => simp [aggLoop, ih]
      | vList l => simp [aggLoop, ih]
      | vInt n => simp [aggLoop, ih]
      | vStr s => simp [aggLoop, ih]

/-- Overwriting a fold over a non-empty list with `some` ends at the
last element. -/
theorem foldl_some_getLast :
    ∀ (pages : List Value) (hne : pages ≠ []) (last : Option Value),
      pages.foldl (fun _ r => some r) last = some (pages.getLast hne)
  | [], hne, _ => absurd rfl hne
  | [v], _, _ => rfl
  | v :: w :: rest, _, last => by
      rw [show (v :: w :: rest).foldl (fun _ r => some r) last =
            (w :: rest).foldl (fun _ r => some r) (some v) from rfl]
      rw [foldl_some_getLast (w :: rest) (by simp) (some v)]
      simp [List.getLast]

/-- C6: `callMethod` drains the lazy page iteration and returns the
merge of all mapping-shaped pages (later-merged pages' keys overwriting
same keys merged earlier) when that merge is non-empty; else the
concatenation of all sequence-shaped pages when non-empty; else the
last yielded page's raw result value unchanged — so a method returning
a bare scalar comes back unchanged. -/
theorem c6_theorem (call : Int → Except Exc Envelope) (start? : Option Int) (fuel : Nat)
    (pages : List Value)
    (hiter : callMethodIter call start? fuel = .ok pages) (hne : pages ≠ []) :
    callMethod call start? fuel =
      .ok (if (specDictMerge pages).isEmpty then
             (if (specListConcat pages).isEmpty then pages.getLast hne
              else .vList (specListConcat pages))
           else .vDict (specDictMerge pages)) := by
  unfold callMethod
  simp only [hiter]
  rw [aggLoop_spec pages [] [] none, foldl_some_getLast pages hne none]
  by_cases h1 : (specDictMerge pages).isEmpty <;>
    by_cases h2 : (specListConcat pages).isEmpty <;>
      simp_all [specDictMerge, specListConcat]

/-- A two-page demo transport whose pages are dicts sharing the key
`k`: the deeper page (offset 50) is yielded first, so the page at
offset 0 is merged later and its `k` wins. -/
def dictPagesCall : Int → Except Exc Envelope := fun start =>
  if start = 0 then
    .ok [("result", .vDict [("k", .vInt 1), ("a", .vInt 2)]), ("next", .vInt 50),
         ("total", .vInt 60)]
  else .ok [("result", .vDict [("k", .vInt 9)])]

/-- A transport whose single page is the bare scalar `42`. -/
def scalarCall : Int → Except Exc Envelope := fun _ => .ok [("result", .vInt 42)]

/-- C6 witness: dict pages merge with the later-yielded page winning on
the shared key, and a bare scalar result is returned unchanged. -/
theorem c6_witness :
    callMethod dictPagesCall none 3 = .ok (.vDict [("k", .vInt 1), ("a", .vInt 2)]) ∧
      callMethod scalarCall none 3 = .ok (.vInt 42) :=
  ⟨c6_theorem dictPagesCall none 3
      [.vDict [("k", .vInt 9)], .vDict [("k", .vInt 1), ("a", .vInt 2)]] rfl (by simp),
    c6_theorem scalarCall none 3 [.vInt 42] rfl (by simp)⟩

/-- Every call the cursor bulk fetch issues uses the forced offset and
sort order. -/
theorem callMethodListGo_calls_forced :
    ∀ (server : Value → Value) (key? : Option String) (fuel : Nat) (id : Value)
      (calls : List ListCall) (res : List Value),
      callMethodListGo server key? fuel id = .ok (calls, res) →
      ∀ c ∈ calls, c.start = -1 ∧ c.order = [("ID", Value.vStr "asc")] := by
  intro server key? fuel
  induction fuel with
  | zero => intro id calls res h; simp [callMethodListGo] at h
  | succ fuel ih =>
      intro id calls res h
      simp only [callMethodListGo] at h
      split at h
      · split at h <;> try exact Except.noConfusion h
        · split at h <;> try exact Except.noConfusion h
          · split at h <;> try exact Except.noConfusion h
            · split at h <;> try exact Except.noConfusion h
              · simp only [Except.ok.injEq, Prod.mk.injEq] at h
                obtain ⟨hcalls, hres⟩ := h
                subst hcalls
                intro c hc
                rcases List.mem_cons.mp hc with hceq | hcmem
                · subst hceq; exact ⟨rfl, rfl⟩
                · exact ih _ _ _ (by assumption) c hcmem
      · simp only [Except.ok.injEq, Prod.mk.injEq] at h
        obtain ⟨hcalls, hres⟩ := h
        subst hcalls
        intro c hc
        rcases List.mem_cons.mp hc with hceq | hcmem
        · subst hceq; exact ⟨rfl, rfl⟩
        · simp at hcmem

/-- The mock server of the claim's scenario: cursor 0 returns rows with
ids 1 and 2, cursor 2 returns the row with id 3, anything else returns
an empty page. -/
def cursorDemo : Value → Value
  | .vInt 0 => .vList [.vDict [("id", .vInt 1)], .vDict [("id", .vInt 2)]]
  | .vInt 2 => .vList [.vDict [("id", .vInt 3)]]
  | _ => .vList []

/-- C7: every call of the cursor bulk fetch forces `start = -1` and
`order = \x7bID: asc\x7d`; and on the mock pages
`[\x7bid:1\x7d,\x7bid:2\x7d]`, `[\x7bid:3\x7d]`, `[]` the `>ID` filter
value is rewritten to 0 (the initial id), then 2, then 3 — the id of
the last row of each non-empty page — every extracted row is appended
in order, and the fetch stops exactly at the first empty page, having
made three calls and returned `[\x7bid:1\x7d,\x7bid:2\x7d,\x7bid:3\x7d]`. -/
theorem c7_theorem :
    (∀ (server : Value → Value) (key? : Option String) (fuel : Nat) (id : Value)
        (calls : List ListCall) (res : List Value),
      callMethodList server key? fuel id = .ok (calls, res) →
      ∀ c ∈ calls, c.start = -1 ∧ c.order = [("ID", Value.vStr "asc")]) ∧
      callMethodList cursorDemo none 5 (.vInt 0) =
        .ok ([⟨-1, [("ID", .vStr "asc")], .vInt 0⟩, ⟨-1, [("ID", .vStr "asc")], .vInt 2⟩,
              ⟨-1, [("ID", .vStr "asc")], .vInt 3⟩],
             [.vDict [("id", .vInt 1)], .vDict [("id", .vInt 2)], .vDict [("id", .vInt 3)]]) :=
  ⟨fun server key? fuel id calls res h =>
      callMethodListGo_calls_forced server key? fuel id calls res h, rfl⟩

/-- C7 witness: the forced-parameter property applied to the first call
of the mock scenario. -/
theorem c7_witness :
    (⟨-1, [("ID", Value.vStr "asc")], Value.vInt 0⟩ : ListCall).start = -1 ∧
      (⟨-1, [("ID", Value.vStr "asc")], Value.vInt 0⟩ : ListCall).order =
        [("ID", Value.vStr "asc")] :=
  c7_theorem.1 cursorDemo none 5 (.vInt 0)
    [⟨-1, [("ID", .vStr "asc")], .vInt 0⟩, ⟨-1, [("ID", .vStr "asc")], .vInt 2⟩,
     ⟨-1, [("ID", .vStr "asc")], .vInt 3⟩]
    [.vDict [("id", .vInt 1)], .vDict [("id", .vInt 2)], .vDict [("id", .vInt 3)]] rfl
    ⟨-1, [("ID", .vStr "asc")], .vInt 0⟩ (List.mem_cons_self _ _)

end Bitrix24
